import Mathlib

/-!
# Verification of the rope-simulation core (`src/main.rs`)

A shallow embedding of the physics core of the rope arcade toy:
Verlet particles, the distance-constrained rope chain, seeking enemies,
collectible points, the collision/constraint resolution pass
(`check_collisions`, `check_enemy_collisions`), the per-frame driver loop,
and theorems settling the specification's claims about them.

`f32` arithmetic is modelled over the reals; vector `length` is
`Real.sqrt (x² + y²)` as in glam's `Vec2::length`, and `normalize` divides
by the length (a junk value at the zero vector; every theorem that touches
`normalize` carries a positivity hypothesis on the length, matching the
source's unguarded division).

External inputs (mouse position, spawn timers and random spawn positions,
window dimensions) are parameters of the driver functions.
-/

namespace RopeSim

/-- 2-D vector with real coordinates (models macroquad/glam `Vec2`). -/
structure Vec2 where
  x : ℝ
  y : ℝ

namespace Vec2

instance : Add Vec2 := ⟨fun a b => ⟨a.x + b.x, a.y + b.y⟩⟩
instance : Sub Vec2 := ⟨fun a b => ⟨a.x - b.x, a.y - b.y⟩⟩
instance : Neg Vec2 := ⟨fun a => ⟨-a.x, -a.y⟩⟩
instance : SMul ℝ Vec2 := ⟨fun c a => ⟨c * a.x, c * a.y⟩⟩
instance : Zero Vec2 := ⟨⟨0, 0⟩⟩

noncomputable instance : DecidableEq Vec2 := Classical.decEq _

/-- Euclidean norm, as in glam's `Vec2::length`. -/
noncomputable def length (v : Vec2) : ℝ := Real.sqrt (v.x ^ 2 + v.y ^ 2)

/-- `Vec2::normalize`: divide by the length (junk at the zero vector). -/
noncomputable def normalize (v : Vec2) : Vec2 := (1 / v.length) • v

end Vec2

/-! ## Constants (from `src/main.rs` lines 4–27) -/

def NUM_PARTICLES : ℕ := 10
def ROPE_BALL_RADIUS : ℝ := 7
def SEGMENT_LENGTH : ℝ := 10
def CONSTRAINT_ITERATIONS : ℕ := 8
def TIME_STEP : ℝ := 0.016
def FRICTION : ℝ := 0.98
def SUBSTEPS : ℕ := 5
def LERP_FACTOR : ℝ := 0.5
def ENEMY_SPEED : ℝ := 7
def ENEMY_RADIUS : ℝ := 10
def POINT_RADIUS : ℝ := 5
def RECTANGLE_WIDTH : ℝ := 800
def RECTANGLE_HEIGHT : ℝ := 600

/-! ## Particle (lines 29–54) -/

structure Particle where
  position : Vec2
  old_position : Vec2
  acceleration : Vec2
  friction : ℝ

instance : Inhabited Particle := ⟨⟨0, 0, 0, 0⟩⟩

/-- `Particle::new` (lines 38–45). -/
def Particle.new (position : Vec2) : Particle :=
  { position := position, old_position := position
    acceleration := 0, friction := FRICTION }

/-- `Particle::update` (lines 47–53): damp the implicit velocity by
`friction`, save the position, advance by the damped velocity, and reset
the (always-zero) acceleration. -/
noncomputable def Particle.update (p : Particle) : Particle :=
  let velocity := p.position - p.old_position
  let velocity := p.friction • velocity
  { position := p.position + velocity
    old_position := p.position
    acceleration := 0
    friction := p.friction }

/-- The implicit (Verlet) velocity `position - old_position`; its length is
the particle's speed. -/
noncomputable def Particle.speed (p : Particle) : ℝ :=
  (p.position - p.old_position).length

/-! ## Rope (lines 56–97) -/

structure Rope where
  particles : List Particle
  thickness : ℝ
  ball_radius : ℝ

/-- `Rope::new` (lines 63–73): `NUM_PARTICLES` particles in a horizontal
line, `SEGMENT_LENGTH` apart, starting at `start`. -/
noncomputable def Rope.new (start : Vec2) : Rope :=
  { particles := (List.range NUM_PARTICLES).map
      (fun i => Particle.new (start + ⟨(i : ℝ) * SEGMENT_LENGTH, 0⟩))
    thickness := 2
    ball_radius := ROPE_BALL_RADIUS }

/-- One pass of the constraint body (lines 80–91) at pair `(i, i+1)`:
read both particles, compute the fractional length error, push `i`
(unless it is the head) and `i+1` by opposite half-offsets scaled by
`1 / SUBSTEPS`. -/
noncomputable def constrainPair (ps : List Particle) (i : ℕ) : List Particle :=
  let particle_a := ps.getD i default
  let particle_b := ps.getD (i + 1) default
  let delta := particle_b.position - particle_a.position
  let delta_length := delta.length
  let diff := (delta_length - SEGMENT_LENGTH) / delta_length
  let offset := (diff * 0.5 / (SUBSTEPS : ℝ)) • delta
  let ps1 := if i ≠ 0 then
      ps.set i { particle_a with position := particle_a.position + offset }
    else ps
  ps1.set (i + 1) { particle_b with position := particle_b.position - offset }

/-- One constraint iteration: the inner `for i in 0..NUM_PARTICLES-1` loop. -/
noncomputable def constrainOnce (ps : List Particle) : List Particle :=
  (List.range (NUM_PARTICLES - 1)).foldl constrainPair ps

/-- The integration loop of `Rope::update` (lines 94–96): update every
particle at index `1..NUM_PARTICLES`. -/
noncomputable def integrateTail (ps : List Particle) : List Particle :=
  (List.range' 1 (NUM_PARTICLES - 1)).foldl
    (fun ps i => ps.set i ((ps.getD i default).update)) ps

/-- `Rope::update` (lines 75–97): pin the head to `target`, run
`CONSTRAINT_ITERATIONS` relaxation iterations, then integrate the tail. -/
noncomputable def Rope.update (r : Rope) (target : Vec2) : Rope :=
  let ps := r.particles.set 0
    { r.particles.getD 0 default with position := target }
  let ps := constrainOnce^[CONSTRAINT_ITERATIONS] ps
  let ps := integrateTail ps
  { r with particles := ps }

/-- The two-particle relaxation step with the head fixed: the `i = 0`
instance of the constraint body of lines 80–91, acting on head position `a`
(immovable) and tail position `b`. -/
noncomputable def relaxPair (a b : Vec2) : Vec2 :=
  let delta := b - a
  let delta_length := delta.length
  let diff := (delta_length - SEGMENT_LENGTH) / delta_length
  let offset := (diff * 0.5 / (SUBSTEPS : ℝ)) • delta
  b - offset

/-- `k` relaxation iterations on the two-particle chain, head fixed at `a`. -/
noncomputable def relaxIter (a b : Vec2) (k : ℕ) : Vec2 := (relaxPair a)^[k] b

/-! ## Enemy and Point (lines 125–227) -/

structure Enemy where
  particle : Particle
  active : Bool
  radius : ℝ

instance : Inhabited Enemy := ⟨⟨default, true, 0⟩⟩

/-- `Enemy::new` (lines 132–165) with the randomly chosen boundary spawn
position passed in as a parameter. -/
def Enemy.new (pos : Vec2) : Enemy :=
  { particle := Particle.new pos, active := true, radius := ENEMY_RADIUS }

structure Point where
  position : Vec2
  active : Bool
  radius : ℝ

instance : Inhabited Point := ⟨⟨0, true, 0⟩⟩

/-- `Point::new` (lines 199–215) with the randomly chosen in-arena spawn
position passed in as a parameter. -/
def Point.new (pos : Vec2) : Point :=
  { position := pos, active := true, radius := POINT_RADIUS }

/-- `is_in_frame` (lines 284–291): is the particle inside the centered
arena rectangle for window dimensions `sw × sh`? -/
noncomputable def is_in_frame (sw sh : ℝ) (particle : Particle) : Bool :=
  let x := particle.position.x
  let y := particle.position.y
  decide ((sw - RECTANGLE_WIDTH) / 2 ≤ x ∧ x ≤ (sw + RECTANGLE_WIDTH) / 2 ∧
    (sh - RECTANGLE_HEIGHT) / 2 ≤ y ∧ y ≤ (sh + RECTANGLE_HEIGHT) / 2)

/-- `Enemy::update` (lines 167–178): seek `target` by a fixed-speed step
when the direction is nonzero, integrate the particle once, then cull by
arena bounds. -/
noncomputable def Enemy.update (sw sh : ℝ) (e : Enemy) (target : Vec2) :
    Enemy :=
  let direction := target - e.particle.position
  let distance := direction.length
  let particle :=
    if distance > 0 then
      { e.particle with
          position := e.particle.position
            + (ENEMY_SPEED * TIME_STEP) • direction.normalize }
    else e.particle
  let particle := particle.update
  let active := if is_in_frame sw sh particle then e.active else false
  { e with particle := particle, active := active }

/-! ## `check_collisions` (lines 229–261) -/

/-- Result of one rope-particle × enemy body (lines 240–248). -/
structure EStep where
  particle : Particle
  enemy : Enemy
  game_over : Bool

/-- One rope-particle × enemy body of `check_collisions` (lines 240–248):
if the centers are within `ROPE_BALL_RADIUS + ENEMY_RADIUS`, push both
apart by half the overlap, then set the game-over flag when the corrected
rope particle's position equals `particle_0` (the head position captured
at the top of the substep iteration). -/
noncomputable def enemyStep (particle_0 : Vec2) (particle : Particle)
    (enemy : Enemy) (game_over : Bool) : EStep :=
  let dist := enemy.particle.position - particle.position
  let len := dist.length
  if len < ROPE_BALL_RADIUS + ENEMY_RADIUS then
    let offset := (ROPE_BALL_RADIUS + ENEMY_RADIUS - len) • dist.normalize
    let enemy' := { enemy with particle := { enemy.particle with
      position := enemy.particle.position + (0.5 : ℝ) • offset } }
    let particle' := { particle with
      position := particle.position - (0.5 : ℝ) • offset }
    let game_over' := if particle'.position = particle_0 then true else game_over
    ⟨particle', enemy', game_over'⟩
  else ⟨particle, enemy, game_over⟩

/-- The `for enemy in enemies.iter_mut()` loop (lines 239–250) for one rope
particle: thread the particle and the flag through every enemy in order. -/
noncomputable def enemiesLoop (particle_0 : Vec2) :
    Particle → List Enemy → Bool → Particle × List Enemy × Bool
  | particle, [], game_over => (particle, [], game_over)
  | particle, e :: es, game_over =>
    let r := enemyStep particle_0 particle e game_over
    let rest := enemiesLoop particle_0 r.particle es r.game_over
    (rest.1, r.enemy :: rest.2.1, rest.2.2)

/-- One rope-particle × point body (lines 251–258): an unconditional scan
of the points list — the `active` flag is *not* consulted — with threshold
`POINT_RADIUS + ENEMY_RADIUS`. -/
noncomputable def pointStep (particle : Particle) (point : Point)
    (score : ℤ) : Point × ℤ :=
  let dist := point.position - particle.position
  let len := dist.length
  if len < POINT_RADIUS + ENEMY_RADIUS then
    ({ point with active := false }, score + 1)
  else (point, score)

/-- The `for point in points.iter_mut()` loop (lines 251–258). -/
noncomputable def pointsLoop (particle : Particle) :
    List Point → ℤ → List Point × ℤ
  | [], score => ([], score)
  | pt :: pts, score =>
    let r := pointStep particle pt score
    let rest := pointsLoop particle pts r.2
    (r.1 :: rest.1, rest.2)

/-- The mutable collision state threaded through `check_collisions`:
enemies, points, score and the game-over flag. -/
structure CollState where
  enemies : List Enemy
  points : List Point
  score : ℤ
  game_over : Bool

/-- The `for particle in rope.particles.iter_mut()` loop (lines 238–259):
for each rope particle in order, run the enemy loop then the point loop. -/
noncomputable def particlesLoop (particle_0 : Vec2) :
    List Particle → CollState → List Particle × CollState
  | [], s => ([], s)
  | pa :: ps, s =>
    let r1 := enemiesLoop particle_0 pa s.enemies s.game_over
    let r2 := pointsLoop r1.1 s.points s.score
    let rest := particlesLoop particle_0 ps
      ⟨r1.2.1, r2.1, r2.2, r1.2.2⟩
    (r1.1 :: rest.1, rest.2)

/-- One iteration of the internal `for _ in 0..SUBSTEPS` loop of
`check_collisions` (lines 236–260): capture the head particle, then run the
particle loop. -/
noncomputable def substepBody (rope : List Particle) (s : CollState) :
    List Particle × CollState :=
  let particle_0 := rope.getD 0 default
  particlesLoop particle_0.position rope s

/-- `check_collisions` (lines 229–261): the body above, `SUBSTEPS` times. -/
noncomputable def check_collisions (rope : List Particle) (s : CollState) :
    List Particle × CollState :=
  (fun p : List Particle × CollState => substepBody p.1 p.2)^[SUBSTEPS]
    (rope, s)

/-! ## `check_enemy_collisions` (lines 263–275) -/

/-- The enemy-pair body (lines 266–272): symmetric half-overlap push at
threshold `ENEMY_RADIUS * 2`. -/
noncomputable def enemyPairStep (es : List Enemy) (i j : ℕ) : List Enemy :=
  let ei := es.getD i default
  let ej := es.getD j default
  let dist := ej.particle.position - ei.particle.position
  let len := dist.length
  if len < ENEMY_RADIUS * 2 then
    let offset := (ENEMY_RADIUS * 2 - len) • dist.normalize
    let es1 := es.set i { ei with particle := { ei.particle with
      position := ei.particle.position - (0.5 : ℝ) • offset } }
    es1.set j { ej with particle := { ej.particle with
      position := ej.particle.position + (0.5 : ℝ) • offset } }
  else es

/-- `check_enemy_collisions` (lines 263–275): all ordered pairs `i < j`. -/
noncomputable def check_enemy_collisions (es : List Enemy) : List Enemy :=
  let n := es.length
  (List.range n).foldl
    (fun es1 i =>
      (List.range' (i + 1) (n - (i + 1))).foldl
        (fun es2 j => enemyPairStep es2 i j) es1)
    es

/-! ## The driver loop (lines 293–368) -/

/-- Whole-simulation state owned by `main`. -/
structure SimState where
  rope : Rope
  enemies : List Enemy
  points : List Point
  score : ℤ
  game_over : Bool

/-- The smoothed rope-head target (lines 305–306). -/
noncomputable def frameTarget (mouse : Vec2) (s : SimState) : Vec2 :=
  let head := (s.rope.particles.getD 0 default).position
  head + LERP_FACTOR • (mouse - head)

/-- One iteration of the `for _ in 0..SUBSTEPS` loop of `main`
(lines 308–324): `rope.update target`, `check_collisions`,
`check_enemy_collisions` (drawing omitted). -/
noncomputable def substepSim (target : Vec2) (s : SimState) : SimState :=
  let rope := s.rope.update target
  let r := check_collisions rope.particles
    ⟨s.enemies, s.points, s.score, s.game_over⟩
  { rope := { rope with particles := r.1 }
    enemies := check_enemy_collisions r.2.enemies
    points := r.2.points
    score := r.2.score
    game_over := r.2.game_over }

/-- The per-tick enemy pass of `main` (lines 336–342): first every enemy's
`Enemy::update` toward the rope head, then — in a second loop — every
enemy's `particle.update()` again. -/
noncomputable def enemyTickCode (sw sh : ℝ) (target : Vec2)
    (es : List Enemy) : List Enemy :=
  (es.map (fun e => e.update sw sh target)).map
    (fun e => { e with particle := e.particle.update })

/-- The composition the spec prescribes for one tick: "seek-step then
integrate" exposed as one operation — exactly one `Enemy.update` (which
already contains the single `Particle.update`) and nothing else. -/
noncomputable def enemyTickSpec (sw sh : ℝ) (target : Vec2)
    (es : List Enemy) : List Enemy :=
  es.map (fun e => e.update sw sh target)

/-- One frame of the `main` loop (lines 303–367), with the external inputs
as parameters: window size `sw × sh`, the mouse position, and the spawn
positions the timers produced this frame (empty when no timer fired). -/
noncomputable def frame (sw sh : ℝ) (mouse : Vec2)
    (spawnE spawnP : List Vec2) (s : SimState) : SimState :=
  let target := frameTarget mouse s
  let s := (substepSim target)^[SUBSTEPS] s
  let s := { s with enemies := s.enemies ++ spawnE.map Enemy.new
                    points := s.points ++ spawnP.map Point.new }
  let head := (s.rope.particles.getD 0 default).position
  let s := { s with enemies := enemyTickCode sw sh head s.enemies }
  { s with points := s.points.filter (fun p => p.active)
           enemies := s.enemies.filter (fun e => e.active) }

/-- The initial state of `main` (lines 295–301). -/
noncomputable def initState : SimState :=
  { rope := Rope.new ⟨0, 100⟩, enemies := [], points := []
    score := 0, game_over := false }

/-- A run of the driver: fold `frame` over a list of per-frame external
inputs `(mouse, enemy spawns, point spawns)`. -/
noncomputable def run (sw sh : ℝ)
    (inputs : List (Vec2 × List Vec2 × List Vec2)) : SimState :=
  inputs.foldl (fun s inp => frame sw sh inp.1 inp.2.1 inp.2.2 s) initState

/-! # Theorems -/

/-! ## Vector lemmas -/

namespace Vec2

theorem ext_iff' (a b : Vec2) : a = b ↔ a.x = b.x ∧ a.y = b.y := by
  cases a; cases b; simp

theorem add_def (a b : Vec2) : a + b = ⟨a.x + b.x, a.y + b.y⟩ := rfl
theorem sub_def (a b : Vec2) : a - b = ⟨a.x - b.x, a.y - b.y⟩ := rfl
theorem smul_def (c : ℝ) (a : Vec2) : c • a = ⟨c * a.x, c * a.y⟩ := rfl
theorem zero_def : (0 : Vec2) = ⟨0, 0⟩ := rfl

theorem length_nonneg (v : Vec2) : 0 ≤ v.length := Real.sqrt_nonneg _

theorem length_smul (c : ℝ) (v : Vec2) : (c • v).length = |c| * v.length := by
  unfold length
  simp only [smul_def]
  rw [show (c * v.x) ^ 2 + (c * v.y) ^ 2 = c ^ 2 * (v.x ^ 2 + v.y ^ 2) by ring,
    Real.sqrt_mul (sq_nonneg c), Real.sqrt_sq_eq_abs]

theorem length_eq_zero_iff (v : Vec2) : v.length = 0 ↔ v = 0 := by
  unfold length
  rw [show v = 0 ↔ v.x = 0 ∧ v.y = 0 by rw [ext_iff' v 0]; simp [zero_def]]
  constructor
  · intro h
    have hx := sq_nonneg v.x
    have hy := sq_nonneg v.y
    have := Real.sqrt_eq_zero (by linarith) |>.mp h
    constructor <;> nlinarith
  · rintro ⟨hx, hy⟩
    simp [hx, hy]

/-- Length of a horizontal vector. -/
theorem length_horizontal (a : ℝ) : (Vec2.mk a 0).length = |a| := by
  unfold length
  simp [Real.sqrt_sq_eq_abs]

end Vec2

/-! ## Particle lemmas -/

/-- A particle at rest (zero implicit velocity, zero acceleration) is a
fixed point of `Particle.update`. -/
theorem Particle.update_at_rest (p : Particle)
    (h : p.old_position = p.position) (ha : p.acceleration = 0) :
    p.update = p := by
  cases p with
  | mk pos old acc f =>
    simp only [update]
    simp_all [Vec2.ext_iff', Vec2.add_def, Vec2.sub_def, Vec2.smul_def]

/-! ## List helpers -/

theorem foldl_preserves {α β : Type _} (f : α → β → α) (P : α → Prop)
    (l : List β) (a : α) (ha : P a) (h : ∀ a b, b ∈ l → P a → P (f a b)) :
    P (l.foldl f a) := by
  induction l generalizing a with
  | nil => exact ha
  | cons b l ih =>
    exact ih (f a b) (h a b (List.mem_cons_self b l) ha)
      (fun a' b' hb' => h a' b' (List.mem_cons_of_mem b hb'))

theorem getD_set_ne {α : Type _} [Inhabited α] (l : List α) (i j : ℕ)
    (a : α) (h : i ≠ j) : (l.set i a).getD j default = l.getD j default := by
  simp [List.getD_eq_getElem?_getD, List.getElem?_set_ne h]

theorem set_getD_self {α : Type _} [Inhabited α] (l : List α) (i : ℕ) :
    l.set i (l.getD i default) = l := by
  apply List.ext_getElem?
  intro n
  by_cases hn : i = n
  · subst hn
    by_cases hi : i < l.length
    · rw [List.getElem?_set_self hi]
      simp [List.getD_eq_getElem?_getD, List.getElem?_eq_getElem hi]
    · rw [List.set_eq_of_length_le (by omega)]
  · rw [List.getElem?_set_ne hn]

/-! ## C4 — head pinning -/

/-- `constrainPair` never writes index 0. -/
theorem constrainPair_getD_zero (ps : List Particle) (i : ℕ) :
    (constrainPair ps i).getD 0 default = ps.getD 0 default := by
  unfold constrainPair
  simp only
  rw [getD_set_ne _ _ _ _ (by omega)]
  by_cases hi : i = 0
  · rw [if_neg (by omega)]
  · rw [if_pos (by omega), getD_set_ne _ _ _ _ (by omega)]

theorem constrainOnce_getD_zero (ps : List Particle) :
    (constrainOnce ps).getD 0 default = ps.getD 0 default := by
  unfold constrainOnce
  exact foldl_preserves _
    (fun l : List Particle => l.getD 0 default = ps.getD 0 default) _ _
    rfl (fun a b _ hp => (constrainPair_getD_zero a b).trans hp)

theorem constrainIter_getD_zero (n : ℕ) (ps : List Particle) :
    (constrainOnce^[n] ps).getD 0 default = ps.getD 0 default := by
  induction n generalizing ps with
  | zero => rfl
  | succ n ih => rw [Function.iterate_succ_apply, ih, constrainOnce_getD_zero]

theorem integrateTail_getD_zero (ps : List Particle) :
    (integrateTail ps).getD 0 default = ps.getD 0 default := by
  unfold integrateTail
  refine foldl_preserves _
    (fun l : List Particle => l.getD 0 default = ps.getD 0 default) _ _
    rfl (fun a b hb hp => ?_)
  have hb1 : 1 ≤ b := (List.mem_range'_1.mp hb).1
  show (a.set b ((a.getD b default).update)).getD 0 default = ps.getD 0 default
  rw [getD_set_ne _ _ _ _ (by omega)]
  exact hp

/-- CLAIM C4. Head pinning: for every rope with a nonempty particle list and
every target, immediately after `Rope.update target` the head particle's
position equals `target` exactly — the head is written once at the top of
`update` and neither the constraint-relaxation iterations nor the
integration loop touches index 0. -/
theorem head_pinning (r : Rope) (target : Vec2)
    (h : 0 < r.particles.length) :
    ((Rope.update r target).particles.getD 0 default).position = target := by
  unfold Rope.update
  simp only
  rw [integrateTail_getD_zero, constrainIter_getD_zero]
  simp [List.getD_eq_getElem?_getD, List.getElem?_set_self h]

/-- Witness for C4 at a concrete input: the rope created at `(0, 100)` has a
nonempty particle list, and after `update ⟨3, 4⟩` its head sits at `⟨3, 4⟩`. -/
theorem head_pinning_witness :
    (((Rope.new ⟨0, 100⟩).update ⟨3, 4⟩).particles.getD 0 default).position
      = ⟨3, 4⟩ :=
  head_pinning (Rope.new ⟨0, 100⟩) ⟨3, 4⟩
    (by simp [Rope.new, NUM_PARTICLES])

/-! ## C8 — friction damping -/

theorem Particle.update_def (p : Particle) :
    p.update = { position := p.position + p.friction • (p.position - p.old_position)
                 old_position := p.position
                 acceleration := 0
                 friction := p.friction } := rfl

theorem Particle.friction_update (p : Particle) :
    p.update.friction = p.friction := rfl

theorem Particle.speed_update (p : Particle) :
    p.update.speed = |p.friction| * p.speed := by
  unfold Particle.speed
  rw [Particle.update_def]
  have : (p.position + p.friction • (p.position - p.old_position)) - p.position
      = p.friction • (p.position - p.old_position) := by
    simp [Vec2.ext_iff', Vec2.add_def, Vec2.sub_def, Vec2.smul_def]
  simp only [this, Vec2.length_smul]

theorem Particle.friction_iterate (p : Particle) (n : ℕ) :
    (Particle.update^[n] p).friction = p.friction := by
  induction n with
  | zero => rfl
  | succ n ih => rw [Function.iterate_succ_apply', Particle.friction_update, ih]

theorem Particle.speed_iterate (p : Particle) (n : ℕ) :
    (Particle.update^[n] p).speed = |p.friction| ^ n * p.speed := by
  induction n with
  | zero => simp
  | succ n ih =>
    rw [Function.iterate_succ_apply', Particle.speed_update,
      Particle.friction_iterate, ih, pow_succ]
    ring

/-- CLAIM C8. Friction damping: a particle with `friction = FRICTION` and
nonzero implicit velocity, repeatedly integrated with no external
displacement, has speed exactly `FRICTION ^ n` times its initial speed
after `n` calls, strictly decreasing at every call and always positive
(asymptotically approaching but never reaching zero, since
`FRICTION = 0.98 < 1`). -/
theorem friction_damping (p : Particle) (hf : p.friction = FRICTION)
    (hs : 0 < p.speed) :
    (∀ n : ℕ, (Particle.update^[n] p).speed = FRICTION ^ n * p.speed)
    ∧ (∀ n : ℕ, (Particle.update^[n + 1] p).speed
        < (Particle.update^[n] p).speed)
    ∧ (∀ n : ℕ, 0 < (Particle.update^[n] p).speed) := by
  have habs : |p.friction| = FRICTION := by
    rw [hf]; unfold FRICTION; rw [abs_of_pos]; norm_num
  have hclosed : ∀ n : ℕ,
      (Particle.update^[n] p).speed = FRICTION ^ n * p.speed := by
    intro n; rw [Particle.speed_iterate, habs]
  have hF0 : (0 : ℝ) < FRICTION := by unfold FRICTION; norm_num
  have hF1 : FRICTION < 1 := by unfold FRICTION; norm_num
  refine ⟨hclosed, fun n => ?_, fun n => ?_⟩
  · rw [hclosed, hclosed, pow_succ]
    have hp : (0 : ℝ) < FRICTION ^ n := pow_pos hF0 n
    nlinarith [mul_pos (mul_pos hp hs) (sub_pos.mpr hF1)]
  · rw [hclosed]
    exact mul_pos (pow_pos hF0 n) hs

/-- Witness for C8: a concrete particle with unit speed; after two updates
its speed is `FRICTION ^ 2`-fold. -/
theorem friction_damping_witness :
    (Particle.update^[2] ⟨⟨1, 0⟩, ⟨0, 0⟩, 0, FRICTION⟩).speed
      = FRICTION ^ 2 * (⟨⟨1, 0⟩, ⟨0, 0⟩, 0, FRICTION⟩ : Particle).speed :=
  (friction_damping ⟨⟨1, 0⟩, ⟨0, 0⟩, 0, FRICTION⟩ rfl
    (by norm_num [Particle.speed, Vec2.sub_def, Vec2.length_horizontal])).1 2

/-! ## C6 — two-particle constraint convergence -/

/-- One two-particle relaxation step with the head fixed: for a positive
separation `d`, the new separation is exactly `(9 d + SEGMENT_LENGTH) / 10`. -/
theorem relaxPair_length (a b : Vec2) (h : 0 < (b - a).length) :
    (relaxPair a b - a).length = (9 * (b - a).length + SEGMENT_LENGTH) / 10 := by
  have hne : (b - a).length ≠ 0 := ne_of_gt h
  have hL : (0 : ℝ) < SEGMENT_LENGTH := by unfold SEGMENT_LENGTH; norm_num
  have hofs : relaxPair a b - a
      = (1 - ((b - a).length - SEGMENT_LENGTH) / (b - a).length * 0.5
          / (SUBSTEPS : ℝ)) • (b - a) := by
    unfold relaxPair
    simp only [Vec2.ext_iff', Vec2.sub_def, Vec2.smul_def]
    constructor <;> ring
  have hcoef : 1 - ((b - a).length - SEGMENT_LENGTH) / (b - a).length * 0.5
      / (SUBSTEPS : ℝ)
      = (9 * (b - a).length + SEGMENT_LENGTH) / (10 * (b - a).length) := by
    unfold SUBSTEPS
    field_simp
    ring
  rw [hofs, Vec2.length_smul, hcoef, abs_of_pos (by positivity)]
  field_simp
  ring

/-- Iterated two-particle relaxation: the separation stays positive and the
absolute length error contracts by exactly `9/10` per iteration. -/
theorem relaxIter_error (a b : Vec2) (h : 0 < (b - a).length) (k : ℕ) :
    0 < (relaxIter a b k - a).length
    ∧ |(relaxIter a b k - a).length - SEGMENT_LENGTH|
        = (9 / 10) ^ k * |(b - a).length - SEGMENT_LENGTH| := by
  have hL : (0 : ℝ) < SEGMENT_LENGTH := by unfold SEGMENT_LENGTH; norm_num
  induction k with
  | zero => exact ⟨h, by rw [pow_zero, one_mul]; rfl⟩
  | succ k ih =>
    have hstep : (relaxIter a b (k + 1) - a).length
        = (9 * (relaxIter a b k - a).length + SEGMENT_LENGTH) / 10 := by
      rw [relaxIter, Function.iterate_succ_apply']
      exact relaxPair_length a _ ih.1
    constructor
    · rw [hstep]; have := ih.1; positivity
    · rw [hstep, pow_succ, show ((9:ℝ) / 10) ^ k * (9 / 10) *
        |(b - a).length - SEGMENT_LENGTH| = (9 / 10) *
        ((9 / 10) ^ k * |(b - a).length - SEGMENT_LENGTH|) by ring, ← ih.2]
      rw [show (9 * (relaxIter a b k - a).length + SEGMENT_LENGTH) / 10
          - SEGMENT_LENGTH
          = (9 / 10) * ((relaxIter a b k - a).length - SEGMENT_LENGTH) by ring]
      rw [abs_mul]
      norm_num

/-- CLAIM C6 (amended). For a two-particle chain with the head fixed and
any positive initial separation, each relaxation iteration multiplies the
absolute error `|distance − SEGMENT_LENGTH|` by exactly `9/10` — hence the
error is monotonically non-increasing and equals `(9/10)^k` times the
initial error after `k` iterations. (It is *not* within a fixed small
epsilon after `CONSTRAINT_ITERATIONS = 8` iterations for large initial
separations: see the counterexample.) -/
theorem relax_error_contraction (a b : Vec2) (h : 0 < (b - a).length) :
    (∀ k : ℕ, |(relaxIter a b (k + 1) - a).length - SEGMENT_LENGTH|
        = 9 / 10 * |(relaxIter a b k - a).length - SEGMENT_LENGTH|)
    ∧ (∀ k : ℕ, |(relaxIter a b k - a).length - SEGMENT_LENGTH|
        = (9 / 10) ^ k * |(b - a).length - SEGMENT_LENGTH|)
    ∧ (∀ k : ℕ, |(relaxIter a b (k + 1) - a).length - SEGMENT_LENGTH|
        ≤ |(relaxIter a b k - a).length - SEGMENT_LENGTH|) := by
  have hstep : ∀ k : ℕ, |(relaxIter a b (k + 1) - a).length - SEGMENT_LENGTH|
      = 9 / 10 * |(relaxIter a b k - a).length - SEGMENT_LENGTH| := by
    intro k
    rw [(relaxIter_error a b h (k + 1)).2, (relaxIter_error a b h k).2,
      pow_succ]
    ring
  refine ⟨hstep, fun k => (relaxIter_error a b h k).2, fun k => ?_⟩
  rw [hstep k]
  have := abs_nonneg ((relaxIter a b k - a).length - SEGMENT_LENGTH)
  linarith

/-- Witness for C6 (amended) at separation 30: after the 8 configured
iterations the error is `(9/10)^8` times the initial error of 20. -/
theorem relax_error_contraction_witness :
    |(relaxIter ⟨0, 0⟩ ⟨30, 0⟩ 8 - (⟨0, 0⟩ : Vec2)).length - SEGMENT_LENGTH|
      = (9 / 10) ^ 8 * |((⟨30, 0⟩ : Vec2) - ⟨0, 0⟩).length - SEGMENT_LENGTH| :=
  (relax_error_contraction ⟨0, 0⟩ ⟨30, 0⟩
    (by norm_num [Vec2.sub_def, Vec2.length_horizontal])).2.1 8

/-- C6 counterexample: the claim's "within a small epsilon of
SEGMENT_LENGTH after CONSTRAINT_ITERATIONS iterations" fails — from
initial separation 1010 the segment length still misses `SEGMENT_LENGTH`
by more than 400 after the full 8 iterations (exactly
`(9/10)^8 · 1000 = 430.46721`). -/
theorem relax_not_converged_after_8 :
    400 < |(relaxIter ⟨0, 0⟩ ⟨1010, 0⟩ CONSTRAINT_ITERATIONS
      - (⟨0, 0⟩ : Vec2)).length - SEGMENT_LENGTH| := by
  have h : 0 < ((⟨1010, 0⟩ : Vec2) - ⟨0, 0⟩).length := by
    norm_num [Vec2.sub_def, Vec2.length_horizontal]
  have h2 := (relaxIter_error ⟨0, 0⟩ ⟨1010, 0⟩ h CONSTRAINT_ITERATIONS).2
  rw [h2]
  have : ((⟨1010, 0⟩ : Vec2) - ⟨0, 0⟩).length = 1010 := by
    norm_num [Vec2.sub_def, Vec2.length_horizontal]
  rw [this]
  unfold CONSTRAINT_ITERATIONS SEGMENT_LENGTH
  rw [show |(1010 : ℝ) - 10| = 1000 by rw [abs_of_pos] <;> norm_num]
  norm_num

/-! ## C5 — collision separation -/

theorem Vec2.smul_smul' (c d : ℝ) (v : Vec2) : c • (d • v) = (c * d) • v := by
  simp only [Vec2.smul_def, Vec2.ext_iff']
  constructor <;> ring

/-- Shape of the symmetric half-overlap push: the two pushed centers differ
by `(1 + 2c)` times the original separation vector. -/
theorem push_pair (p q : Vec2) (c : ℝ) :
    (q + c • (q - p)) - (p - c • (q - p)) = (1 + 2 * c) • (q - p) := by
  simp only [Vec2.smul_def, Vec2.sub_def, Vec2.add_def, Vec2.ext_iff']
  constructor <;> ring

theorem add_sub_cancel_vec (q w : Vec2) : (q + w) - q = w := by
  simp only [Vec2.add_def, Vec2.sub_def, Vec2.ext_iff']
  constructor <;> ring

theorem sub_sub_cancel_vec (p w : Vec2) : (p - w) - p = (-1 : ℝ) • w := by
  simp only [Vec2.smul_def, Vec2.sub_def, Vec2.ext_iff']
  constructor <;> ring

/-- The half-overlap offset, rewritten as an explicit multiple of the
separation vector. -/
theorem half_offset_eq (p q : Vec2) (r : ℝ)
    (hne : (q - p).length ≠ 0) :
    (0.5 : ℝ) • ((r - (q - p).length) • (q - p).normalize)
      = ((r - (q - p).length) / (2 * (q - p).length)) • (q - p) := by
  unfold Vec2.normalize
  rw [Vec2.smul_smul', Vec2.smul_smul']
  congr 1
  field_simp
  ring

/-- Geometry of one symmetric half-overlap resolution at radius sum `r`:
the new separation vector is `(r / d) • (q - p)` (the original axis), the
new distance is exactly `r`, and each body is displaced `(r − d) / 2`. -/
theorem half_push (p q : Vec2) (r : ℝ)
    (h0 : 0 < (q - p).length) (h1 : (q - p).length < r) :
    (q + (0.5 : ℝ) • ((r - (q - p).length) • (q - p).normalize))
        - (p - (0.5 : ℝ) • ((r - (q - p).length) • (q - p).normalize))
      = (r / (q - p).length) • (q - p)
    ∧ ((q + (0.5 : ℝ) • ((r - (q - p).length) • (q - p).normalize))
        - (p - (0.5 : ℝ) • ((r - (q - p).length) • (q - p).normalize))).length
      = r
    ∧ ((q + (0.5 : ℝ) • ((r - (q - p).length) • (q - p).normalize))
        - q).length = (r - (q - p).length) / 2
    ∧ ((p - (0.5 : ℝ) • ((r - (q - p).length) • (q - p).normalize))
        - p).length = (r - (q - p).length) / 2 := by
  have hne : (q - p).length ≠ 0 := ne_of_gt h0
  have hr : 0 < r := lt_trans h0 h1
  have hc : (0 : ℝ) ≤ (r - (q - p).length) / (2 * (q - p).length) := by
    have := sub_pos.mpr h1
    positivity
  rw [half_offset_eq p q r hne]
  have hsep := push_pair p q ((r - (q - p).length) / (2 * (q - p).length))
  have hcoef : 1 + 2 * ((r - (q - p).length) / (2 * (q - p).length))
      = r / (q - p).length := by
    field_simp
    ring
  refine ⟨?_, ?_, ?_, ?_⟩
  · rw [hsep, hcoef]
  · rw [hsep, hcoef, Vec2.length_smul, abs_of_pos (by positivity)]
    field_simp
  · rw [add_sub_cancel_vec, Vec2.length_smul, abs_of_nonneg hc]
    field_simp
    ring
  · rw [sub_sub_cancel_vec, Vec2.smul_smul', Vec2.length_smul]
    rw [show (-1 : ℝ) * ((r - (q - p).length) / (2 * (q - p).length))
      = -((r - (q - p).length) / (2 * (q - p).length)) by ring, abs_neg,
      abs_of_nonneg hc]
    field_simp
    ring

/-- Projection of `enemyStep` in the overlap case: the rope particle is
pushed by minus half the offset. -/
theorem enemyStep_hit_particle (particle_0 : Vec2) (pa : Particle)
    (e : Enemy) (go : Bool)
    (h1 : (e.particle.position - pa.position).length
        < ROPE_BALL_RADIUS + ENEMY_RADIUS) :
    (enemyStep particle_0 pa e go).particle.position
      = pa.position - (0.5 : ℝ) • ((ROPE_BALL_RADIUS + ENEMY_RADIUS
          - (e.particle.position - pa.position).length)
        • (e.particle.position - pa.position).normalize) := by
  simp only [enemyStep]
  rw [if_pos h1]

/-- Projection of `enemyStep` in the overlap case: the enemy is pushed by
plus half the offset. -/
theorem enemyStep_hit_enemy (particle_0 : Vec2) (pa : Particle)
    (e : Enemy) (go : Bool)
    (h1 : (e.particle.position - pa.position).length
        < ROPE_BALL_RADIUS + ENEMY_RADIUS) :
    (enemyStep particle_0 pa e go).enemy.particle.position
      = e.particle.position + (0.5 : ℝ) • ((ROPE_BALL_RADIUS + ENEMY_RADIUS
          - (e.particle.position - pa.position).length)
        • (e.particle.position - pa.position).normalize) := by
  simp only [enemyStep]
  rw [if_pos h1]

theorem getD_set_self {α : Type _} [Inhabited α] (l : List α) (i : ℕ)
    (a : α) (h : i < l.length) : (l.set i a).getD i default = a := by
  simp [List.getD_eq_getElem?_getD, List.getElem?_set_self h]

/-- Projections of `enemyPairStep` in the overlap case. -/
theorem enemyPairStep_hit (es : List Enemy) (i j : ℕ) (hij : i ≠ j)
    (hi : i < es.length) (hj : j < es.length)
    (h1 : ((es.getD j default).particle.position
        - (es.getD i default).particle.position).length < ENEMY_RADIUS * 2) :
    ((enemyPairStep es i j).getD i default).particle.position
      = (es.getD i default).particle.position
        - (0.5 : ℝ) • ((ENEMY_RADIUS * 2
            - ((es.getD j default).particle.position
              - (es.getD i default).particle.position).length)
          • ((es.getD j default).particle.position
            - (es.getD i default).particle.position).normalize)
    ∧ ((enemyPairStep es i j).getD j default).particle.position
      = (es.getD j default).particle.position
        + (0.5 : ℝ) • ((ENEMY_RADIUS * 2
            - ((es.getD j default).particle.position
              - (es.getD i default).particle.position).length)
          • ((es.getD j default).particle.position
            - (es.getD i default).particle.position).normalize) := by
  simp only [enemyPairStep]
  rw [if_pos h1]
  constructor
  · rw [getD_set_ne _ _ _ _ (Ne.symm hij), getD_set_self _ _ _ hi]
  · rw [getD_set_self _ _ _ (by simpa using hj)]

/-- CLAIM C5 (amended). Collision separation: both overlap-resolution steps
(rope↔enemy in `check_collisions`, enemy↔enemy in
`check_enemy_collisions`) always apply the *symmetric* half-overlap push:
for centers at distance `0 < d <` radius sum, each body — the rope head
included, nothing is pinned during the pass — moves exactly
`(radius sum − d)/2` along the original separation axis, and the centers
end exactly the radius sum apart. There is no pinned special case in the
code (see the counterexample). -/
theorem collision_separation :
    (∀ (particle_0 : Vec2) (pa : Particle) (e : Enemy) (go : Bool),
      0 < (e.particle.position - pa.position).length →
      (e.particle.position - pa.position).length
          < ROPE_BALL_RADIUS + ENEMY_RADIUS →
      ((enemyStep particle_0 pa e go).enemy.particle.position
          - (enemyStep particle_0 pa e go).particle.position).length
        = ROPE_BALL_RADIUS + ENEMY_RADIUS
      ∧ ((enemyStep particle_0 pa e go).enemy.particle.position
          - e.particle.position).length
        = (ROPE_BALL_RADIUS + ENEMY_RADIUS
            - (e.particle.position - pa.position).length) / 2
      ∧ ((enemyStep particle_0 pa e go).particle.position
          - pa.position).length
        = (ROPE_BALL_RADIUS + ENEMY_RADIUS
            - (e.particle.position - pa.position).length) / 2)
    ∧ (∀ (es : List Enemy) (i j : ℕ), i ≠ j →
      i < es.length → j < es.length →
      0 < ((es.getD j default).particle.position
          - (es.getD i default).particle.position).length →
      ((es.getD j default).particle.position
          - (es.getD i default).particle.position).length
        < ENEMY_RADIUS * 2 →
      (((enemyPairStep es i j).getD j default).particle.position
          - ((enemyPairStep es i j).getD i default).particle.position).length
        = ENEMY_RADIUS * 2
      ∧ (((enemyPairStep es i j).getD j default).particle.position
          - (es.getD j default).particle.position).length
        = (ENEMY_RADIUS * 2 - ((es.getD j default).particle.position
            - (es.getD i default).particle.position).length) / 2
      ∧ (((enemyPairStep es i j).getD i default).particle.position
          - (es.getD i default).particle.position).length
        = (ENEMY_RADIUS * 2 - ((es.getD j default).particle.position
            - (es.getD i default).particle.position).length) / 2) := by
  constructor
  · intro particle_0 pa e go h0 h1
    have hp := half_push pa.position e.particle.position
      (ROPE_BALL_RADIUS + ENEMY_RADIUS) h0 h1
    rw [enemyStep_hit_particle particle_0 pa e go h1,
      enemyStep_hit_enemy particle_0 pa e go h1]
    exact ⟨hp.2.1, hp.2.2.1, hp.2.2.2⟩
  · intro es i j hij hi hj h0 h1
    have hp := half_push (es.getD i default).particle.position
      (es.getD j default).particle.position (ENEMY_RADIUS * 2) h0 h1
    have hps := enemyPairStep_hit es i j hij hi hj h1
    rw [hps.1, hps.2]
    exact ⟨hp.2.1, hp.2.2.1, hp.2.2.2⟩

/-- Witness for C5 (amended): a rope particle at the origin and an enemy at
distance 9 < 17 end exactly 17 apart after one resolution step. -/
theorem collision_separation_witness :
    ((enemyStep ⟨50, 50⟩ (Particle.new ⟨0, 0⟩) (Enemy.new ⟨9, 0⟩)
        false).enemy.particle.position
      - (enemyStep ⟨50, 50⟩ (Particle.new ⟨0, 0⟩) (Enemy.new ⟨9, 0⟩)
        false).particle.position).length
    = ROPE_BALL_RADIUS + ENEMY_RADIUS :=
  (collision_separation.1 ⟨50, 50⟩ (Particle.new ⟨0, 0⟩) (Enemy.new ⟨9, 0⟩)
    false
    (by norm_num [Enemy.new, Particle.new, Vec2.sub_def, Vec2.length_horizontal])
    (by norm_num [Enemy.new, Particle.new, Vec2.sub_def, Vec2.length_horizontal,
      ROPE_BALL_RADIUS, ENEMY_RADIUS])).1

/-- C5 counterexample: the claim's pinned clause fails — the code never
pins a body during resolution. With the rope head (the body §4.2 pins) at
`(0,0)` and an enemy at `(9,0)` (overlap `8`), the step moves the head
itself to `(-4, 0)` and the enemy only to `(13, 0)`: the enemy does *not*
move the full `r1+r2−d = 8` (which would put it at `(17, 0)`). -/
theorem collision_no_pinned_case :
    (enemyStep ⟨0, 0⟩ (Particle.new ⟨0, 0⟩) (Enemy.new ⟨9, 0⟩)
        false).particle.position = ⟨-4, 0⟩
    ∧ (enemyStep ⟨0, 0⟩ (Particle.new ⟨0, 0⟩) (Enemy.new ⟨9, 0⟩)
        false).enemy.particle.position = ⟨13, 0⟩
    ∧ ((⟨-4, 0⟩ : Vec2) ≠ ⟨0, 0⟩ ∧ (⟨13, 0⟩ : Vec2) ≠ ⟨17, 0⟩) := by
  have hlen : ((Enemy.new ⟨9, 0⟩).particle.position
      - (Particle.new ⟨0, 0⟩).position).length = 9 := by
    rw [show (Enemy.new ⟨9, 0⟩).particle.position
        - (Particle.new ⟨0, 0⟩).position = Vec2.mk 9 0 by
      norm_num [Enemy.new, Particle.new, Vec2.sub_def]]
    rw [Vec2.length_horizontal]
    norm_num
  have h1 : ((Enemy.new ⟨9, 0⟩).particle.position
      - (Particle.new ⟨0, 0⟩).position).length
      < ROPE_BALL_RADIUS + ENEMY_RADIUS := by
    rw [hlen]; norm_num [ROPE_BALL_RADIUS, ENEMY_RADIUS]
  have hnorm : ((Enemy.new ⟨9, 0⟩).particle.position
      - (Particle.new ⟨0, 0⟩).position).normalize = ⟨1, 0⟩ := by
    unfold Vec2.normalize
    rw [hlen, show (Enemy.new ⟨9, 0⟩).particle.position
        - (Particle.new ⟨0, 0⟩).position = Vec2.mk 9 0 by
      norm_num [Enemy.new, Particle.new, Vec2.sub_def]]
    norm_num [Vec2.smul_def]
  refine ⟨?_, ?_, by norm_num [Vec2.ext_iff'], by norm_num [Vec2.ext_iff']⟩
  · rw [enemyStep_hit_particle _ _ _ _ h1, hlen, hnorm]
    norm_num [Particle.new, Vec2.smul_def, Vec2.sub_def,
      ROPE_BALL_RADIUS, ENEMY_RADIUS]
  · rw [enemyStep_hit_enemy _ _ _ _ h1, hlen, hnorm]
    norm_num [Enemy.new, Particle.new, Vec2.smul_def, Vec2.add_def,
      ROPE_BALL_RADIUS, ENEMY_RADIUS]

/-! ## C7 — enemy tick: seek, then how many integrations? -/

theorem Vec2.length_pos_of_ne_zero {v : Vec2} (h : v ≠ 0) : 0 < v.length :=
  lt_of_le_of_ne (Vec2.length_nonneg v)
    fun h0 => h ((Vec2.length_eq_zero_iff v).mp h0.symm)

/-- With a zero seek direction, `Enemy::update` is just one particle
integration (plus the bounds check). -/
theorem Enemy.update_particle_stay (sw sh : ℝ) (e : Enemy) :
    (e.update sw sh e.particle.position).particle = e.particle.update := by
  simp only [Enemy.update]
  have h : (e.particle.position - e.particle.position).length = 0 := by
    rw [show e.particle.position - e.particle.position = (0 : Vec2) by
      simp [Vec2.sub_def, Vec2.ext_iff', Vec2.zero_def]]
    exact (Vec2.length_eq_zero_iff 0).mpr rfl
  have hng : ¬ ((e.particle.position - e.particle.position).length > 0) := by
    rw [h]; norm_num
  rw [if_neg hng]

/-- With a nonzero seek direction, `Enemy::update`'s particle is the seeked
particle integrated once. -/
theorem Enemy.update_particle_seek (sw sh : ℝ) (e : Enemy) (target : Vec2)
    (h : target ≠ e.particle.position) :
    (e.update sw sh target).particle
      = ({ e.particle with position := e.particle.position
          + (ENEMY_SPEED * TIME_STEP)
            • (target - e.particle.position).normalize }).update := by
  simp only [Enemy.update]
  have hne : target - e.particle.position ≠ 0 := by
    intro h0
    apply h
    rw [Vec2.ext_iff'] at h0 ⊢
    rw [Vec2.sub_def] at h0
    simp only [Vec2.zero_def] at h0
    obtain ⟨hx, hy⟩ := h0
    constructor <;> linarith
  rw [if_pos (Vec2.length_pos_of_ne_zero hne)]

/-- CLAIM C7 (amended). The per-tick enemy advancement of the driver is the
composition "seek-step then *two* integrations": `enemyTickCode` (lines
336–342) equals, per enemy, `Enemy::update` (which performs the seek step —
skipped exactly when the direction is zero — followed by one
`Particle::update` and the bounds cull) followed by a *second*
`Particle::update` applied by the driver's separate loop. -/
theorem enemy_tick_seek_then_integrate :
    (∀ (sw sh : ℝ) (target : Vec2) (es : List Enemy),
      enemyTickCode sw sh target es
        = es.map (fun e => { e.update sw sh target with
            particle := (e.update sw sh target).particle.update }))
    ∧ (∀ (sw sh : ℝ) (e : Enemy),
        (e.update sw sh e.particle.position).particle = e.particle.update)
    ∧ (∀ (sw sh : ℝ) (e : Enemy) (target : Vec2),
        target ≠ e.particle.position →
        (e.update sw sh target).particle
          = ({ e.particle with position := e.particle.position
              + (ENEMY_SPEED * TIME_STEP)
                • (target - e.particle.position).normalize }).update) := by
  refine ⟨fun sw sh target es => ?_,
    fun sw sh e => Enemy.update_particle_stay sw sh e,
    fun sw sh e target h => Enemy.update_particle_seek sw sh e target h⟩
  unfold enemyTickCode
  rw [List.map_map]
  rfl

/-- Witness for C7 (amended): concrete nonzero-direction seek step. -/
theorem enemy_tick_seek_witness :
    ((Enemy.new ⟨0, 0⟩).update 0 0 ⟨100, 0⟩).particle
      = ({ (Enemy.new ⟨0, 0⟩).particle with
          position := (Enemy.new ⟨0, 0⟩).particle.position
            + (ENEMY_SPEED * TIME_STEP)
              • ((⟨100, 0⟩ : Vec2)
                - (Enemy.new ⟨0, 0⟩).particle.position).normalize }).update :=
  enemy_tick_seek_then_integrate.2.2 0 0 (Enemy.new ⟨0, 0⟩) ⟨100, 0⟩
    (by norm_num [Enemy.new, Particle.new, Vec2.ext_iff'])

/-- C7 counterexample: the tick is *not* "seek then exactly one
integration". For an enemy at the origin seeking `(100, 0)`, the spec
composition (`enemyTickSpec`, one `Particle.update`) leaves it at
`x = 0.22176` while the code's tick (`enemyTickCode`) applies a second
integration and leaves it at `x = 0.3293248`. -/
theorem enemy_tick_counterexample :
    enemyTickCode 0 0 ⟨100, 0⟩ [Enemy.new ⟨0, 0⟩]
      ≠ enemyTickSpec 0 0 ⟨100, 0⟩ [Enemy.new ⟨0, 0⟩] := by
  have hdir : (⟨100, 0⟩ : Vec2) - (Enemy.new ⟨0, 0⟩).particle.position
      = Vec2.mk 100 0 := by
    norm_num [Enemy.new, Particle.new, Vec2.sub_def]
  have hnorm : ((⟨100, 0⟩ : Vec2)
      - (Enemy.new ⟨0, 0⟩).particle.position).normalize = ⟨1, 0⟩ := by
    unfold Vec2.normalize
    rw [hdir, Vec2.length_horizontal]
    norm_num [Vec2.smul_def, Vec2.ext_iff']
  have hpart : ((Enemy.new ⟨0, 0⟩).update 0 0 ⟨100, 0⟩).particle
      = ⟨⟨0.22176, 0⟩, ⟨0.112, 0⟩, 0, FRICTION⟩ := by
    rw [Enemy.update_particle_seek 0 0 (Enemy.new ⟨0, 0⟩) ⟨100, 0⟩
      (by norm_num [Enemy.new, Particle.new, Vec2.ext_iff'])]
    rw [hnorm]
    rw [Particle.update_def]
    norm_num [Enemy.new, Particle.new, Vec2.ext_iff', Vec2.add_def,
      Vec2.sub_def, Vec2.smul_def, ENEMY_SPEED, TIME_STEP, FRICTION]
  intro heq
  have hcode : enemyTickCode 0 0 ⟨100, 0⟩ [Enemy.new ⟨0, 0⟩]
      = [{ (Enemy.new ⟨0, 0⟩).update 0 0 ⟨100, 0⟩ with
          particle := ((Enemy.new ⟨0, 0⟩).update 0 0 ⟨100, 0⟩).particle.update }] := by
    simp [enemyTickCode]
  have hspec : enemyTickSpec 0 0 ⟨100, 0⟩ [Enemy.new ⟨0, 0⟩]
      = [(Enemy.new ⟨0, 0⟩).update 0 0 ⟨100, 0⟩] := by
    simp [enemyTickSpec]
  rw [hcode, hspec] at heq
  have hx := congrArg
    (fun l : List Enemy => ((l.headD default).particle.position).x) heq
  simp only [List.headD_cons] at hx
  rw [hpart] at hx
  rw [Particle.update_def] at hx
  norm_num [Vec2.add_def, Vec2.sub_def, Vec2.smul_def, FRICTION] at hx

/-! ## C9 — boundary culling -/

theorem if_bool_and (c a : Bool) : (if c then a else false) = (c && a) := by
  cases c <;> simp

theorem filter_all_self {α : Type _} (l : List α) (p : α → Bool) :
    (l.filter p).all p = true := by
  rw [List.all_eq_true]
  intro x hx
  exact (List.mem_filter.mp hx).2

/-- CLAIM C9. Boundary culling: `Enemy::update` leaves the enemy active
exactly when it was active *and* its post-seek, post-integration particle
is inside the arena rectangle (so an enemy whose final position is outside
is marked inactive by that same call); and after any frame's end-of-frame
compaction every enemy still in the collection is active (the culled enemy
is absent). -/
theorem boundary_culling :
    (∀ (sw sh : ℝ) (e : Enemy) (target : Vec2),
      (e.update sw sh target).active
        = (is_in_frame sw sh (e.update sw sh target).particle && e.active))
    ∧ (∀ (sw sh : ℝ) (mouse : Vec2) (spawnE spawnP : List Vec2)
        (s : SimState),
      (frame sw sh mouse spawnE spawnP s).enemies.all (fun e => e.active)
        = true) := by
  constructor
  · intro sw sh e target
    simp only [Enemy.update]
    exact if_bool_and _ _
  · intro sw sh mouse spawnE spawnP s
    simp only [frame]
    exact filter_all_self _ _

/-! ## C10 — every collision pass sees only active enemies -/

theorem enemyStep_active (p0 : Vec2) (pa : Particle) (e : Enemy)
    (go : Bool) : (enemyStep p0 pa e go).enemy.active = e.active := by
  simp only [enemyStep]
  split <;> rfl

theorem enemiesLoop_active (p0 : Vec2) (pa : Particle) (es : List Enemy)
    (go : Bool) :
    (enemiesLoop p0 pa es go).2.1.map (fun e => e.active)
      = es.map (fun e => e.active) := by
  induction es generalizing pa go with
  | nil => rfl
  | cons e es ih =>
    simp only [enemiesLoop, List.map_cons]
    rw [enemyStep_active, ih]

theorem particlesLoop_enemies_active (p0 : Vec2) (ps : List Particle)
    (s : CollState) :
    (particlesLoop p0 ps s).2.enemies.map (fun e => e.active)
      = s.enemies.map (fun e => e.active) := by
  induction ps generalizing s with
  | nil => rfl
  | cons pa ps ih =>
    simp only [particlesLoop]
    rw [ih]
    exact enemiesLoop_active p0 pa s.enemies s.game_over

theorem check_collisions_enemies_active (rope : List Particle)
    (s : CollState) :
    (check_collisions rope s).2.enemies.map (fun e => e.active)
      = s.enemies.map (fun e => e.active) := by
  unfold check_collisions
  have key : ∀ (n : ℕ) (p : List Particle × CollState),
      (((fun p : List Particle × CollState =>
          substepBody p.1 p.2)^[n] p).2.enemies).map (fun e => e.active)
        = p.2.enemies.map (fun e => e.active) := by
    intro n
    induction n with
    | zero => intro p; rfl
    | succ n ih =>
      intro p
      rw [Function.iterate_succ_apply, ih]
      exact particlesLoop_enemies_active _ _ _
  exact key SUBSTEPS (rope, s)

theorem map_active_set (es : List Enemy) (i : ℕ) (a : Enemy)
    (h : a.active = (es.getD i default).active) :
    (es.set i a).map (fun e => e.active) = es.map (fun e => e.active) := by
  by_cases hi : i < es.length
  · rw [List.map_set, h]
    have hg : (es.getD i default).active
        = (es.map (fun e : Enemy => e.active)).getD i default := by
      simp [List.getD_eq_getElem?_getD, List.getElem?_eq_getElem hi]
    rw [hg, set_getD_self]
  · rw [List.set_eq_of_length_le (by omega)]

theorem enemyPairStep_active (es : List Enemy) (i j : ℕ) (hij : i ≠ j) :
    (enemyPairStep es i j).map (fun e => e.active)
      = es.map (fun e => e.active) := by
  simp only [enemyPairStep]
  split
  · rw [map_active_set]
    · rw [map_active_set]
      rfl
    · rw [getD_set_ne _ _ _ _ hij]
  · rfl

theorem check_enemy_collisions_active (es : List Enemy) :
    (check_enemy_collisions es).map (fun e => e.active)
      = es.map (fun e => e.active) := by
  unfold check_enemy_collisions
  refine foldl_preserves _
    (fun l : List Enemy => l.map (fun e => e.active)
      = es.map (fun e => e.active)) _ _ rfl (fun a i _ hp => ?_)
  refine foldl_preserves _
    (fun l : List Enemy => l.map (fun e => e.active)
      = es.map (fun e => e.active)) _ _ hp (fun b j hj hq => ?_)
  have hji : i + 1 ≤ j := (List.mem_range'_1.mp hj).1
  show (enemyPairStep b i j).map (fun e => e.active)
    = es.map (fun e => e.active)
  rw [enemyPairStep_active b i j (by omega)]
  exact hq

theorem all_of_map_active_eq {es es' : List Enemy}
    (h : es'.map (fun e => e.active) = es.map (fun e => e.active)) :
    es'.all (fun e => e.active) = es.all (fun e => e.active) := by
  have key : ∀ l : List Enemy, (l.map (fun e => e.active)).all id
      = l.all (fun e => e.active) := by
    intro l
    induction l with
    | nil => rfl
    | cons e l ih =>
      rw [List.map_cons, List.all_cons, List.all_cons, ih]
      rfl
  rw [← key, ← key, h]

theorem substepSim_enemies_active (target : Vec2) (s : SimState) :
    (substepSim target s).enemies.map (fun e => e.active)
      = s.enemies.map (fun e => e.active) := by
  simp only [substepSim]
  rw [check_enemy_collisions_active]
  exact check_collisions_enemies_active _ _

theorem frame_enemies_all_active (sw sh : ℝ) (mouse : Vec2)
    (spawnE spawnP : List Vec2) (s : SimState) :
    (frame sw sh mouse spawnE spawnP s).enemies.all (fun e => e.active)
      = true := by
  simp only [frame]
  exact filter_all_self _ _

/-- CLAIM C10. Every collision-pass invocation sees only active enemies:
(1) `check_collisions` and (2) `check_enemy_collisions` never change any
enemy's `active` flag, so (3) if a frame starts with every enemy active,
then at the start of each of its `SUBSTEPS` substeps — i.e. whenever
`check_collisions` (and, via (1), `check_enemy_collisions`) is invoked —
every enemy in the collection is still active; and (4) every state
reachable by whole frames from the initial state has only active enemies,
because the only deactivation site (`Enemy.update`) runs after the substep
loop and before that same frame's `retain` compaction. -/
theorem collision_pass_sees_active_enemies :
    (∀ (rope : List Particle) (s : CollState),
      (check_collisions rope s).2.enemies.map (fun e => e.active)
        = s.enemies.map (fun e => e.active))
    ∧ (∀ es : List Enemy,
      (check_enemy_collisions es).map (fun e => e.active)
        = es.map (fun e => e.active))
    ∧ (∀ (target : Vec2) (s : SimState),
      s.enemies.all (fun e => e.active) = true →
      ∀ k : ℕ, ((substepSim target)^[k] s).enemies.all (fun e => e.active)
        = true)
    ∧ (∀ (sw sh : ℝ) (inputs : List (Vec2 × List Vec2 × List Vec2)),
      (run sw sh inputs).enemies.all (fun e => e.active) = true) := by
  refine ⟨check_collisions_enemies_active, check_enemy_collisions_active,
    fun target s hs k => ?_, fun sw sh inputs => ?_⟩
  · induction k with
    | zero => exact hs
    | succ k ih =>
      rw [Function.iterate_succ_apply']
      rw [all_of_map_active_eq (substepSim_enemies_active target _)]
      exact ih
  · unfold run
    have key : ∀ (l : List (Vec2 × List Vec2 × List Vec2)) (s : SimState),
        s.enemies.all (fun e => e.active) = true →
        (l.foldl (fun s inp => frame sw sh inp.1 inp.2.1 inp.2.2 s)
          s).enemies.all (fun e => e.active) = true := by
      intro l
      induction l with
      | nil => intro s hs; exact hs
      | cons inp l ih =>
        intro s _
        rw [List.foldl_cons]
        exact ih (frame sw sh inp.1 inp.2.1 inp.2.2 s)
          (frame_enemies_all_active sw sh inp.1 inp.2.1 inp.2.2 s)
    exact key inputs initState rfl

/-- Witness for C10: a concrete one-enemy state, all active, stays all
active through two substeps. -/
theorem collision_pass_sees_active_enemies_witness :
    ((substepSim ⟨0, 100⟩)^[2]
      ⟨Rope.new ⟨0, 100⟩, [Enemy.new ⟨300, 0⟩], [], 0, false⟩).enemies.all
        (fun e => e.active) = true :=
  collision_pass_sees_active_enemies.2.2.1 ⟨0, 100⟩
    ⟨Rope.new ⟨0, 100⟩, [Enemy.new ⟨300, 0⟩], [], 0, false⟩
    (by simp [Enemy.new]) 2

/-! ## C2 — game-over trigger -/

theorem enemyStep_go_true (p0 : Vec2) (pa : Particle) (e : Enemy) :
    (enemyStep p0 pa e true).game_over = true := by
  simp only [enemyStep]
  split
  · split <;> rfl
  · rfl

theorem enemiesLoop_go_true (p0 : Vec2) (pa : Particle) (es : List Enemy) :
    (enemiesLoop p0 pa es true).2.2 = true := by
  induction es generalizing pa with
  | nil => rfl
  | cons e es ih =>
    simp only [enemiesLoop]
    rw [enemyStep_go_true]
    exact ih _

theorem particlesLoop_go_true (p0 : Vec2) (ps : List Particle)
    (es : List Enemy) (pts : List Point) (sc : ℤ) :
    (particlesLoop p0 ps ⟨es, pts, sc, true⟩).2.game_over = true := by
  induction ps generalizing es pts sc with
  | nil => rfl
  | cons pa ps ih =>
    simp only [particlesLoop]
    rw [enemiesLoop_go_true]
    exact ih _ _ _

theorem check_collisions_go_true (rope : List Particle) (es : List Enemy)
    (pts : List Point) (sc : ℤ) :
    (check_collisions rope ⟨es, pts, sc, true⟩).2.game_over = true := by
  unfold check_collisions
  have key : ∀ (n : ℕ) (p : List Particle × CollState),
      p.2.game_over = true →
      (((fun p : List Particle × CollState =>
        substepBody p.1 p.2)^[n] p).2.game_over) = true := by
    intro n
    induction n with
    | zero => intro p hp; exact hp
    | succ n ih =>
      intro p hp
      rw [Function.iterate_succ_apply]
      refine ih _ ?_
      show (particlesLoop _ p.1 p.2).2.game_over = true
      have : p.2 = ⟨p.2.enemies, p.2.points, p.2.score, p.2.game_over⟩ := rfl
      rw [this, hp]
      exact particlesLoop_go_true _ _ _ _ _
  exact key SUBSTEPS (rope, ⟨es, pts, sc, true⟩) rfl

/-- CLAIM C2. The game-over flag: (1) at its unique write site — the
rope-particle × enemy body — the flag comes out `true` exactly when it was
already `true` or the overlap correction fired and left the corrected rope
particle's position exactly equal to `particle_0`, the head position
captured at the top of the current substep iteration; (2) over a whole
`check_collisions` pass the resulting flag is the incoming flag OR-ed with
what the pass computes from a clear flag (the flag is monotone and set by
nothing else in the pass); (3) a driver substep's flag is exactly the flag
produced by `check_collisions` (`check_enemy_collisions` and `Rope.update`
never touch it); (4) a frame's final flag is exactly the flag after its
substep loop (the spawn/enemy-update/compaction phases never write it). -/
theorem game_over_trigger :
    (∀ (particle_0 : Vec2) (pa : Particle) (e : Enemy) (go : Bool),
      ((enemyStep particle_0 pa e go).game_over = true ↔
        (go = true
          ∨ ((e.particle.position - pa.position).length
              < ROPE_BALL_RADIUS + ENEMY_RADIUS
            ∧ (enemyStep particle_0 pa e go).particle.position
              = particle_0))))
    ∧ (∀ (rope : List Particle) (es : List Enemy) (pts : List Point)
        (sc : ℤ) (go : Bool),
      (check_collisions rope ⟨es, pts, sc, go⟩).2.game_over
        = (go || (check_collisions rope ⟨es, pts, sc, false⟩).2.game_over))
    ∧ (∀ (target : Vec2) (s : SimState),
      (substepSim target s).game_over
        = (check_collisions (s.rope.update target).particles
            ⟨s.enemies, s.points, s.score, s.game_over⟩).2.game_over)
    ∧ (∀ (sw sh : ℝ) (mouse : Vec2) (spawnE spawnP : List Vec2)
        (s : SimState),
      (frame sw sh mouse spawnE spawnP s).game_over
        = ((substepSim (frameTarget mouse s))^[SUBSTEPS] s).game_over) := by
  refine ⟨fun particle_0 pa e go => ?_, fun rope es pts sc go => ?_,
    fun target s => by simp only [substepSim],
    fun sw sh mouse spawnE spawnP s => by simp only [frame]⟩
  · simp only [enemyStep]
    split
    · next hlt =>
      split
      · next heq => simp [hlt, heq]
      · next heq => simp [hlt, heq]
    · next hlt => simp [hlt]
  · cases go with
    | false => rfl
    | true => rw [check_collisions_go_true, Bool.true_or]

/-! ## C1 and C3 — concrete evaluation of the collision pass -/

theorem Vec2.length_lt_iff (v : Vec2) (c : ℝ) (hc : 0 < c) :
    v.length < c ↔ v.x ^ 2 + v.y ^ 2 < c ^ 2 := by
  unfold Vec2.length
  exact Real.sqrt_lt' hc

/-- Length of a vertical vector. -/
theorem Vec2.length_vertical (a : ℝ) : (Vec2.mk 0 a).length = |a| := by
  unfold Vec2.length
  simp [Real.sqrt_sq_eq_abs]

/-- `pointStep` with the threshold test reduced to squared coordinates. -/
theorem pointStep_sq (pa : Particle) (pt : Point) (sc : ℤ) :
    pointStep pa pt sc
      = if (pt.position - pa.position).x ^ 2
          + (pt.position - pa.position).y ^ 2 < 225 then
          ({ pt with active := false }, sc + 1)
        else (pt, sc) := by
  unfold pointStep
  refine if_congr ?_ rfl rfl
  rw [Vec2.length_lt_iff _ _ (by norm_num [POINT_RADIUS, ENEMY_RADIUS])]
  norm_num [POINT_RADIUS, ENEMY_RADIUS]

/-- The initial rope's particle list, fully expanded. -/
theorem rope0_particles :
    (Rope.new ⟨0, 100⟩).particles
      = [Particle.new ⟨0, 100⟩, Particle.new ⟨10, 100⟩,
         Particle.new ⟨20, 100⟩, Particle.new ⟨30, 100⟩,
         Particle.new ⟨40, 100⟩, Particle.new ⟨50, 100⟩,
         Particle.new ⟨60, 100⟩, Particle.new ⟨70, 100⟩,
         Particle.new ⟨80, 100⟩, Particle.new ⟨90, 100⟩] := by
  unfold Rope.new NUM_PARTICLES
  rw [show List.range 10 = [0, 1, 2, 3, 4, 5, 6, 7, 8, 9] from rfl]
  simp only [List.map_cons, List.map_nil]
  norm_num [Particle.new, Vec2.add_def, SEGMENT_LENGTH, Vec2.ext_iff']

/-- One execution of the internal substep body on the C1/C3 input: no
enemies, a single point at `(0, 87)` — within 15 of the rope head at
`(0, 100)` (distance 13) and farther than 15 from every other rope
particle. Whatever the point's `active` flag, the body deactivates it and
increments the score — by one per body execution. -/
theorem check_overlap_substep (sc : ℤ) (go : Bool) (b : Bool) :
    substepBody (Rope.new ⟨0, 100⟩).particles
      ⟨[], [⟨⟨0, 87⟩, b, POINT_RADIUS⟩], sc, go⟩
      = ((Rope.new ⟨0, 100⟩).particles,
         ⟨[], [⟨⟨0, 87⟩, false, POINT_RADIUS⟩], sc + 1, go⟩) := by
  rw [rope0_particles]
  simp only [substepBody, particlesLoop, enemiesLoop, pointsLoop, pointStep_sq]
  norm_num [Particle.new, Vec2.sub_def]

/-- `check_collisions` on the C1/C3 input: the internal `SUBSTEPS` loop
executes the body 5 times, each deactivating the (already inactive after
the first) point and incrementing the score again. -/
theorem collIter_overlap (go : Bool) (n : ℕ) : ∀ (sc : ℤ) (b : Bool),
    (fun p : List Particle × CollState => substepBody p.1 p.2)^[n + 1]
      ((Rope.new ⟨0, 100⟩).particles,
        ⟨[], [⟨⟨0, 87⟩, b, POINT_RADIUS⟩], sc, go⟩)
    = ((Rope.new ⟨0, 100⟩).particles,
       ⟨[], [⟨⟨0, 87⟩, false, POINT_RADIUS⟩], sc + (n : ℤ) + 1, go⟩) := by
  induction n with
  | zero =>
    intro sc b
    rw [Function.iterate_one]
    show substepBody (Rope.new ⟨0, 100⟩).particles
      ⟨[], [⟨⟨0, 87⟩, b, POINT_RADIUS⟩], sc, go⟩ = _
    rw [check_overlap_substep sc go b]
    norm_num
  | succ n ih =>
    intro sc b
    rw [Function.iterate_succ_apply]
    show (fun p : List Particle × CollState => substepBody p.1 p.2)^[n + 1]
      (substepBody (Rope.new ⟨0, 100⟩).particles
        ⟨[], [⟨⟨0, 87⟩, b, POINT_RADIUS⟩], sc, go⟩) = _
    rw [check_overlap_substep sc go b, ih]
    have hsc : sc + 1 + (n : ℤ) + 1 = sc + ((n : ℕ) + 1 : ℕ) + 1 := by
      push_cast
      ring
    rw [hsc]

theorem check_collisions_overlap (sc : ℤ) (go : Bool) (b : Bool) :
    check_collisions (Rope.new ⟨0, 100⟩).particles
      ⟨[], [⟨⟨0, 87⟩, b, POINT_RADIUS⟩], sc, go⟩
      = ((Rope.new ⟨0, 100⟩).particles,
         ⟨[], [⟨⟨0, 87⟩, false, POINT_RADIUS⟩], sc + 5, go⟩) := by
  unfold check_collisions SUBSTEPS
  rw [show (5 : ℕ) = 4 + 1 from rfl, collIter_overlap go 4 sc b,
    show sc + ((4 : ℕ) : ℤ) + 1 = sc + 5 from by push_cast; ring]

/-- CLAIM C1 (evaluation at the failing input). One `check_collisions` call
on a rope at `(0, 100)` with no enemies and a single active point at
`(0, 87)` increments the score by 5, not 1: the point is deactivated at the
first hit but, lacking an `active` test, is re-scored by each of the 5
internal substep iterations until end-of-frame compaction. Moreover the
collected point sits at distance 13 from the head — *beyond* the
rope-and-point radius sum `ROPE_BALL_RADIUS + POINT_RADIUS = 12` (the code
compares against `POINT_RADIUS + ENEMY_RADIUS = 15`). -/
theorem point_pickup_overcount :
    (check_collisions (Rope.new ⟨0, 100⟩).particles
        ⟨[], [Point.new ⟨0, 87⟩], 0, false⟩).2.score = 5
    ∧ (check_collisions (Rope.new ⟨0, 100⟩).particles
        ⟨[], [Point.new ⟨0, 87⟩], 0, false⟩).2.points
      = [⟨⟨0, 87⟩, false, POINT_RADIUS⟩]
    ∧ ROPE_BALL_RADIUS + POINT_RADIUS
        < ((Point.new ⟨0, 87⟩).position
            - ((Rope.new ⟨0, 100⟩).particles.getD 0 default).position).length := by
  have h := check_collisions_overlap 0 false true
  rw [show (Point.new ⟨0, 87⟩ : Point) = ⟨⟨0, 87⟩, true, POINT_RADIUS⟩ from rfl]
  refine ⟨?_, ?_, ?_⟩
  · rw [h]
    norm_num
  · rw [h]
  · rw [rope0_particles]
    have hv : (⟨⟨0, 87⟩, true, POINT_RADIUS⟩ : Point).position
        - ([Particle.new ⟨0, 100⟩, Particle.new ⟨10, 100⟩,
           Particle.new ⟨20, 100⟩, Particle.new ⟨30, 100⟩,
           Particle.new ⟨40, 100⟩, Particle.new ⟨50, 100⟩,
           Particle.new ⟨60, 100⟩, Particle.new ⟨70, 100⟩,
           Particle.new ⟨80, 100⟩,
           Particle.new ⟨90, 100⟩].getD 0 default).position
        = Vec2.mk 0 (-13) := by
      norm_num [Particle.new, Vec2.sub_def]
    rw [hv, Vec2.length_vertical]
    norm_num [ROPE_BALL_RADIUS, POINT_RADIUS]

/-! ### The initial rope is a fixed point of `Rope.update` at its own head -/

theorem rope0_seglen (i : ℕ) (hi : i < 9) :
    (((Rope.new ⟨0, 100⟩).particles.getD (i + 1) default).position
      - ((Rope.new ⟨0, 100⟩).particles.getD i default).position).length
      = SEGMENT_LENGTH := by
  rw [rope0_particles]
  interval_cases i <;>
    · norm_num [List.getD_eq_getElem?_getD, Particle.new, Vec2.sub_def]
      rw [Vec2.length_horizontal]
      norm_num [SEGMENT_LENGTH]

theorem constrainPair_exact (ps : List Particle) (i : ℕ)
    (hlen : ((ps.getD (i + 1) default).position
      - (ps.getD i default).position).length = SEGMENT_LENGTH) :
    constrainPair ps i = ps := by
  simp only [constrainPair]
  rw [hlen]
  have hz : ((SEGMENT_LENGTH - SEGMENT_LENGTH) / SEGMENT_LENGTH * 0.5
      / (SUBSTEPS : ℝ)) • ((ps.getD (i + 1) default).position
        - (ps.getD i default).position) = (⟨0, 0⟩ : Vec2) := by
    norm_num [Vec2.smul_def]
  rw [hz]
  have ha : ∀ p : Particle,
      ({ p with position := p.position + ⟨0, 0⟩ } : Particle) = p := by
    intro p
    cases p
    simp [Vec2.add_def, Vec2.ext_iff']
  have hb : ∀ p : Particle,
      ({ p with position := p.position - ⟨0, 0⟩ } : Particle) = p := by
    intro p
    cases p
    simp [Vec2.sub_def, Vec2.ext_iff']
  rw [ha, hb]
  simp only [set_getD_self, ite_self]

theorem constrainOnce_rope0 :
    constrainOnce (Rope.new ⟨0, 100⟩).particles
      = (Rope.new ⟨0, 100⟩).particles := by
  unfold constrainOnce
  refine foldl_preserves _
    (fun l : List Particle => l = (Rope.new ⟨0, 100⟩).particles) _ _ rfl
    (fun a i hi hp => ?_)
  rw [hp]
  have hi9 : i < 9 := by
    have := List.mem_range.mp hi
    simpa [NUM_PARTICLES] using this
  exact constrainPair_exact _ _ (rope0_seglen i hi9)

theorem rope0_at_rest (i : ℕ) :
    ((Rope.new ⟨0, 100⟩).particles.getD i default).old_position
      = ((Rope.new ⟨0, 100⟩).particles.getD i default).position
    ∧ ((Rope.new ⟨0, 100⟩).particles.getD i default).acceleration = 0 := by
  by_cases hi : i < 10
  · rw [rope0_particles]
    interval_cases i <;> simp [Particle.new]
  · rw [rope0_particles]
    have hnone : ([Particle.new ⟨0, 100⟩, Particle.new ⟨10, 100⟩,
        Particle.new ⟨20, 100⟩, Particle.new ⟨30, 100⟩,
        Particle.new ⟨40, 100⟩, Particle.new ⟨50, 100⟩,
        Particle.new ⟨60, 100⟩, Particle.new ⟨70, 100⟩,
        Particle.new ⟨80, 100⟩, Particle.new ⟨90, 100⟩].getD i default)
        = default := by
      have hlen : ([Particle.new ⟨0, 100⟩, Particle.new ⟨10, 100⟩,
          Particle.new ⟨20, 100⟩, Particle.new ⟨30, 100⟩,
          Particle.new ⟨40, 100⟩, Particle.new ⟨50, 100⟩,
          Particle.new ⟨60, 100⟩, Particle.new ⟨70, 100⟩,
          Particle.new ⟨80, 100⟩, Particle.new ⟨90, 100⟩] :
            List Particle).length ≤ i := by
        simp
        omega
      simp [List.getD_eq_getElem?_getD, List.getElem?_eq_none hlen]
    rw [hnone]
    exact ⟨rfl, rfl⟩

theorem integrateTail_rope0 :
    integrateTail (Rope.new ⟨0, 100⟩).particles
      = (Rope.new ⟨0, 100⟩).particles := by
  unfold integrateTail
  refine foldl_preserves _
    (fun l : List Particle => l = (Rope.new ⟨0, 100⟩).particles) _ _ rfl
    (fun a i _ hp => ?_)
  rw [hp]
  rw [Particle.update_at_rest _ (rope0_at_rest i).1 (rope0_at_rest i).2,
    set_getD_self]

theorem rope0_update_id :
    (Rope.new ⟨0, 100⟩).update ⟨0, 100⟩ = Rope.new ⟨0, 100⟩ := by
  unfold Rope.update
  simp only
  have h00 : ({ (Rope.new ⟨0, 100⟩).particles.getD 0 default with
      position := (⟨0, 100⟩ : Vec2) } : Particle)
      = (Rope.new ⟨0, 100⟩).particles.getD 0 default := by
    rw [rope0_particles]
    rfl
  rw [h00, set_getD_self,
    Function.iterate_fixed constrainOnce_rope0 CONSTRAINT_ITERATIONS,
    integrateTail_rope0]

/-! ### One driver substep and one frame on the C3 configuration -/

theorem substepSim_overlap (sc : ℤ) (b : Bool) :
    substepSim ⟨0, 100⟩
      ⟨Rope.new ⟨0, 100⟩, [], [⟨⟨0, 87⟩, b, POINT_RADIUS⟩], sc, false⟩
      = ⟨Rope.new ⟨0, 100⟩, [], [⟨⟨0, 87⟩, false, POINT_RADIUS⟩],
         sc + 5, false⟩ := by
  simp only [substepSim]
  rw [rope0_update_id, check_collisions_overlap sc false b]
  rw [show check_enemy_collisions [] = [] from rfl]

theorem substepSim_overlap_iter (n : ℕ) : ∀ (sc : ℤ) (b : Bool),
    (substepSim ⟨0, 100⟩)^[n + 1]
      ⟨Rope.new ⟨0, 100⟩, [], [⟨⟨0, 87⟩, b, POINT_RADIUS⟩], sc, false⟩
      = ⟨Rope.new ⟨0, 100⟩, [], [⟨⟨0, 87⟩, false, POINT_RADIUS⟩],
         sc + 5 * ((n : ℤ) + 1), false⟩ := by
  induction n with
  | zero =>
    intro sc b
    rw [Function.iterate_one, substepSim_overlap]
    norm_num
  | succ n ih =>
    intro sc b
    rw [Function.iterate_succ_apply, substepSim_overlap, ih]
    have hsc : sc + 5 + 5 * ((n : ℤ) + 1)
        = sc + 5 * (((n : ℕ) + 1 : ℕ) + 1) := by
      push_cast
      ring
    rw [hsc]

theorem frame_overlap (sw sh : ℝ) (sc : ℤ) :
    frame sw sh ⟨0, 100⟩ [] []
      ⟨Rope.new ⟨0, 100⟩, [], [Point.new ⟨0, 87⟩], sc, false⟩
      = ⟨Rope.new ⟨0, 100⟩, [], [], sc + 25, false⟩ := by
  have htarget : frameTarget ⟨0, 100⟩
      ⟨Rope.new ⟨0, 100⟩, [], [Point.new ⟨0, 87⟩], sc, false⟩
      = (⟨0, 100⟩ : Vec2) := by
    simp only [frameTarget]
    rw [rope0_particles]
    norm_num [Particle.new, Vec2.add_def, Vec2.sub_def, Vec2.smul_def,
      LERP_FACTOR, Vec2.ext_iff', List.getD_eq_getElem?_getD]
  simp only [frame]
  rw [htarget]
  rw [show (Point.new ⟨0, 87⟩ : Point)
    = (⟨⟨0, 87⟩, true, POINT_RADIUS⟩ : Point) from rfl]
  unfold SUBSTEPS
  rw [show (5 : ℕ) = 4 + 1 from rfl, substepSim_overlap_iter 4 sc true]
  simp only [enemyTickCode, List.map_nil, List.append_nil, List.filter]
  norm_num

/-- CLAIM C3 (amended). The collision/resolution body runs `SUBSTEPS` times
per `check_collisions` invocation (the function loops internally), and the
frame loop invokes `check_collisions` once per its `SUBSTEPS` substeps, so
the body executes `SUBSTEPS² = 25` times per rendered frame — not once per
substep / 5 per frame. Observed through a configuration in which every body
execution increments the score by exactly 1 (one point overlapping exactly
one rope particle, rope and point stationary): one `check_collisions` call
adds 5, one frame adds 25. -/
theorem collision_body_runs_25 (sw sh : ℝ) (sc : ℤ) :
    (check_collisions (Rope.new ⟨0, 100⟩).particles
        ⟨[], [Point.new ⟨0, 87⟩], sc, false⟩).2.score = sc + 5
    ∧ (frame sw sh ⟨0, 100⟩ [] []
        ⟨Rope.new ⟨0, 100⟩, [], [Point.new ⟨0, 87⟩], sc, false⟩).score
      = sc + 25 := by
  constructor
  · rw [show (Point.new ⟨0, 87⟩ : Point)
      = (⟨⟨0, 87⟩, true, POINT_RADIUS⟩ : Point) from rfl,
      check_collisions_overlap sc false true]
  · rw [frame_overlap]

/-- C3 counterexample: in the observer configuration (each body execution
adds exactly 1 to the score) the claim predicts a per-frame score increase
of `SUBSTEPS = 5`; the code produces 25. -/
theorem collision_body_runs_25_counterexample :
    (frame 800 600 ⟨0, 100⟩ [] []
        ⟨Rope.new ⟨0, 100⟩, [], [Point.new ⟨0, 87⟩], 0, false⟩).score = 25
    ∧ (25 : ℤ) ≠ 5 := by
  constructor
  · rw [frame_overlap]
    norm_num
  · norm_num

end RopeSim
